import Mathlib

/-!
Shallow embedding of the ingest package of AJMBrands/SoftwareThatMatters
(file src/unnamed/part_000, Go).  Go maps are embedded as association
lists recording one concrete iteration sequence; Go runtime panics and
calls to log.Fatal are embedded as the none case of Option results.
Strings are compared by their character lists; the inputs relevant to the
claims are ASCII, where the Go byte length of a string coincides with its
character count.
-/

/-! ## Timestamp codec

The Go code parses and prints timestamps with time.RFC3339Nano.  Since Go
1.20 both directions go through dedicated RFC3339 fast paths
(time.parseRFC3339 and Time.appendFormatRFC3339); the functions below are
a character level embedding of those two routines.  A Go time.Time value
produced by parseRFC3339 is determined by its broken-down calendar fields
plus the fixed zone offset, which is what the CreatedTime structure
records (the offset in minutes: parseRFC3339 only ever produces whole
minute offsets).
-/

/-- Broken-down time as produced by the Go RFC3339 parser: calendar
fields, nanoseconds, and the fixed zone offset in minutes east of UTC. -/
structure CreatedTime where
  year : Nat
  month : Nat
  day : Nat
  hour : Nat
  minute : Nat
  second : Nat
  nanos : Nat
  offset : Int
  deriving DecidableEq

/-- Decimal digit characters, as emitted by the Go formatter. -/
def digitChar : Nat → Char
  | 0 => '0' | 1 => '1' | 2 => '2' | 3 => '3' | 4 => '4'
  | 5 => '5' | 6 => '6' | 7 => '7' | 8 => '8' | _ => '9'

/-- Reads one decimal digit, as the Go parser does byte by byte. -/
def toDigit (c : Char) : Option Nat :=
  if 48 ≤ c.toNat ∧ c.toNat ≤ 57 then some (c.toNat - 48) else none

/-- Two fixed decimal digits (a field of the form 05). -/
def read2 : List Char → Option (Nat × List Char)
  | c1 :: c2 :: rest =>
    match toDigit c1, toDigit c2 with
    | some d1, some d2 => some (10 * d1 + d2, rest)
    | _, _ => none
  | _ => none

/-- Four fixed decimal digits (the year field). -/
def read4 : List Char → Option (Nat × List Char)
  | c1 :: c2 :: c3 :: c4 :: rest =>
    match toDigit c1, toDigit c2, toDigit c3, toDigit c4 with
    | some d1, some d2, some d3, some d4 =>
        some (1000 * d1 + 100 * d2 + 10 * d3 + d4, rest)
    | _, _, _, _ => none
  | _ => none

/-- Consumes one expected separator character. -/
def expectChar (c : Char) : List Char → Option (List Char)
  | x :: xs => if x = c then some xs else none
  | [] => none

/-- Greedily reads decimal digits, mirroring the digit scan of the Go
fractional second parser. -/
def readDigits : List Char → List Nat × List Char
  | [] => ([], [])
  | c :: cs =>
    match toDigit c with
    | some d =>
      let p := readDigits cs
      (d :: p.1, p.2)
    | none => ([], c :: cs)

/-- Value of a fractional second digit list in nanoseconds: Go keeps at
most nine digits and scales by the number of missing digits. -/
def fracVal (ds : List Nat) : Nat :=
  (ds.take 9).foldl (fun a d => 10 * a + d) 0 * 10 ^ (9 - min ds.length 9)

/-- Optional fractional second: a dot followed by at least one digit.
When the input does not continue with a dot and a digit, Go skips the
fraction; a dangling dot then makes the zone parse fail, which this
embedding folds into the none result. -/
def parseFrac (s : List Char) : Option (Nat × List Char) :=
  match s with
  | c :: rest =>
    if c = '.' then
      match rest with
      | c2 :: cs =>
        match toDigit c2 with
        | some d =>
          let p := readDigits cs
          some (fracVal (d :: p.1), p.2)
        | none => none
      | [] => none
    else some (0, c :: rest)
  | [] => some (0, [])

/-- Zone suffix: either Z or a sign with a two digit hour, a colon and a
two digit minute, exactly as in the Go RFC3339 fast path (hour at most
23, minute at most 59).  The result is the offset in minutes. -/
def parseZone (s : List Char) : Option Int :=
  match s with
  | [c] => if c = 'Z' then some 0 else none
  | [sign, h1, h2, colon, m1, m2] =>
    if (sign = '+' ∨ sign = '-') ∧ colon = ':' then
      match toDigit h1, toDigit h2, toDigit m1, toDigit m2 with
      | some a, some b, some c, some d =>
        let hh := 10 * a + b
        let mm := 10 * c + d
        if hh ≤ 23 ∧ mm ≤ 59 then
          some (if sign = '-' then -((hh * 60 + mm : Nat) : Int) else ((hh * 60 + mm : Nat) : Int))
        else none
      | _, _, _, _ => none
    else none
  | _ => none

/-- Leap year rule used by the Go daysIn helper. -/
def isLeap (y : Nat) : Bool := y % 4 = 0 ∧ (y % 100 ≠ 0 ∨ y % 400 = 0)

/-- Number of days of a month, as in the Go time package. -/
def daysIn (m y : Nat) : Nat :=
  if m = 2 then (if isLeap y then 29 else 28)
  else if m = 4 ∨ m = 6 ∨ m = 9 ∨ m = 11 then 30 else 31

/-- Embedding of the Go RFC3339 parsing fast path used by
time.Parse(time.RFC3339Nano, s): fixed width fields with separator and
range checks, optional fraction, then the zone suffix which must end the
input. -/
def parseRFC3339 (s : List Char) : Option CreatedTime :=
  match read4 s with
  | none => none
  | some (year, s1) =>
  match expectChar '-' s1 with
  | none => none
  | some s2 =>
  match read2 s2 with
  | none => none
  | some (month, s3) =>
  match expectChar '-' s3 with
  | none => none
  | some s4 =>
  match read2 s4 with
  | none => none
  | some (day, s5) =>
  match expectChar 'T' s5 with
  | none => none
  | some s6 =>
  match read2 s6 with
  | none => none
  | some (hour, s7) =>
  match expectChar ':' s7 with
  | none => none
  | some s8 =>
  match read2 s8 with
  | none => none
  | some (minute, s9) =>
  match expectChar ':' s9 with
  | none => none
  | some s10 =>
  match read2 s10 with
  | none => none
  | some (second, s11) =>
  if month < 1 ∨ 12 < month then none else
  if day < 1 ∨ daysIn month year < day then none else
  if 23 < hour then none else
  if 59 < minute then none else
  if 59 < second then none else
  match parseFrac s11 with
  | none => none
  | some (nanos, s12) =>
  match parseZone s12 with
  | none => none
  | some offset => some ⟨year, month, day, hour, minute, second, nanos, offset⟩

/-- Two digit zero padded field of the Go formatter. -/
def pad2 (n : Nat) : List Char := [digitChar (n / 10 % 10), digitChar (n % 10)]

/-- Four digit zero padded field of the Go formatter. -/
def pad4 (n : Nat) : List Char :=
  [digitChar (n / 1000 % 10), digitChar (n / 100 % 10), digitChar (n / 10 % 10), digitChar (n % 10)]

/-- Digits of n, zero padded to width w, most significant first. -/
def padN : Nat → Nat → List Nat
  | 0, _ => []
  | w + 1, n => padN w (n / 10) ++ [n % 10]

/-- Strips trailing decimal zeros, keeping track of the remaining print
width; this is the numeric counterpart of the byte trimming done by the
Go appendNano routine for the .999999999 layout. -/
def stripZeros : Nat → Nat → Nat × Nat
  | n, 0 => (n, 0)
  | n, w + 1 => if n % 10 = 0 then stripZeros (n / 10) w else (n, w + 1)

/-- Fractional second suffix of the RFC3339Nano layout: empty when the
nanosecond field is zero, otherwise a dot and the nine digit field with
trailing zeros removed. -/
def fracChars (ns : Nat) : List Char :=
  if ns = 0 then []
  else
    let p := stripZeros ns 9
    '.' :: (padN p.2 p.1).map digitChar

/-- Zone suffix of the Go formatter: Z for offset zero, otherwise a sign
and the absolute offset as hours and minutes. -/
def zoneChars (off : Int) : List Char :=
  if off = 0 then ['Z']
  else
    let a := off.natAbs
    (if off < 0 then '-' else '+') :: (pad2 (a / 60) ++ ':' :: pad2 (a % 60))

/-- Embedding of Time.Format(time.RFC3339Nano) for times produced by the
parser above (Go appendFormatRFC3339 with fractional seconds). -/
def formatRFC3339Nano (t : CreatedTime) : List Char :=
  pad4 t.year ++ '-' :: (pad2 t.month ++ '-' :: (pad2 t.day ++ 'T' :: (pad2 t.hour ++
    ':' :: (pad2 t.minute ++ ':' :: (pad2 t.second ++ (fracChars t.nanos ++ zoneChars t.offset))))))

/-- Go strings.Trim(s, quote): removes every leading and trailing double
quote character. -/
def trimQuotes (l : List Char) : List Char :=
  ((l.dropWhile (fun c => c = '"')).reverse.dropWhile (fun c => c = '"')).reverse

/-- CreatedTime.UnmarshalJSON (lines 40 to 48): trim double quotes from
the raw bytes, then parse with the RFC3339Nano layout.  A parse error is
returned to the caller, embedded as none. -/
def CreatedTime.unmarshalJSON (b : String) : Option CreatedTime :=
  parseRFC3339 (trimQuotes b.data)

/-- CreatedTime.String (lines 78 to 80): format with the RFC3339Nano
layout. -/
def CreatedTime.string (t : CreatedTime) : String :=
  ⟨formatRFC3339Nano t⟩

/-- Zero value of the Go time.Time type (and hence of CreatedTime):
January 1 of year 1, 00:00:00 UTC. -/
def CreatedTime.zero : CreatedTime := ⟨1, 1, 1, 0, 0, 0, 0, 0⟩

/-! ## Record types and the dependency extractor -/

/-- JSON values of the dynamic (interface) typed map fields; only the
distinction between strings and every other JSON kind matters to the
code, which applies an unchecked string type assertion. -/
inductive JVal where
  | str (s : String)
  | num (n : Int)
  | boolean (b : Bool)
  | null
  deriving DecidableEq

/-- Dependency (lines 104 to 107). -/
structure Dependency where
  name : String
  requiredVersion : String
  deriving DecidableEq

/-- Dependency.String (lines 109 to 111): fmt.Sprintf with the
name:version layout. -/
def Dependency.string (d : Dependency) : String :=
  d.name ++ ":" ++ d.requiredVersion

/-- VersionInfo (lines 99 to 102): the per version registry response;
both map fields are declared with dynamically typed values. -/
structure VersionInfo where
  dependencies : List (String × JVal)
  devDependencies : List (String × JVal)
  deriving DecidableEq

/-- Version (lines 82 to 85). -/
structure Version where
  number : String
  publishedAt : CreatedTime
  deriving DecidableEq

/-- PackageInfo (lines 87 to 90). -/
structure PackageInfo where
  name : String
  versions : List Version
  deriving DecidableEq

/-- VersionDependencies (lines 92 to 97). -/
structure VersionDependencies where
  name : String
  version : String
  versionCreated : CreatedTime
  dependencies : List Dependency
  deriving DecidableEq

/-- VersionData (lines 18 to 22): one version entry of the streamed bulk
document; both dependency maps are string typed there. -/
structure VersionData where
  version : String
  devDependencies : List (String × String)
  dependencies : List (String × String)
  deriving DecidableEq

/-- Doc (lines 24 to 28): a streamed package document.  The versions
field is a Go map; the association list records the iteration sequence
of one concrete run.  The time map is only ever indexed, never iterated,
so its list order is irrelevant. -/
structure Doc where
  name : String
  versions : List (String × VersionData)
  time : List (String × CreatedTime)
  deriving DecidableEq

/-- Entry (lines 30 to 32). -/
structure Entry where
  doc : Doc
  deriving DecidableEq

/-- tooLong (lines 296 to 299): the length guard against absurdly long
names or ranges.  Go len counts bytes; on the ASCII data relevant here
this equals the character count used by String.length. -/
def tooLong (a b : String) : Bool :=
  a.length > 10000 ∨ b.length > 10000

/-- Go range loop of process lines 249 to 251 and 252 to 254: every map
value is passed through an unchecked string type assertion, which panics
on a non string value (none); no length guard is applied. -/
def assertAllStrings : List (String × JVal) → Option (List Dependency)
  | [] => some []
  | (k, v) :: rest =>
    match v with
    | .str s => (assertAllStrings rest).map (fun l => ⟨k, s⟩ :: l)
    | _ => none

/-- Dependency extraction of the live fetch path (process lines 247 to
254): runtime dependencies first, then dev dependencies, each value read
through the string type assertion; nothing is filtered. -/
def extractLive (deps devDeps : List (String × JVal)) : Option (List Dependency) := do
  let a ← assertAllStrings deps
  let b ← assertAllStrings devDeps
  pure (a ++ b)

/-- Dependency extraction of the streaming path (StreamDecode lines 336
to 349): runtime dependencies first, then dev dependencies, each list
filtered by the tooLong guard. -/
def extractStream (deps devDeps : List (String × String)) : List Dependency :=
  (deps.filter (fun p => !(tooLong p.1 p.2))).map (fun p => ⟨p.1, p.2⟩) ++
    (devDeps.filter (fun p => !(tooLong p.1 p.2))).map (fun p => ⟨p.1, p.2⟩)

/-! ## CSV sink -/

/-- Dependency list field of writeOneToFile (lines 273 to 283): the
rendered dependencies joined by semicolons, wrapped in square
brackets. -/
def depsString (deps : List Dependency) : String :=
  "[" ++ String.intercalate ";" (deps.map Dependency.string) ++ "]"

/-- writeOneToFile (lines 270 to 288): the four field record handed to
the csv writer; the timestamp is rendered with the RFC3339Nano layout. -/
def writeOneToFile (input : VersionDependencies) : List String :=
  [input.name, input.version, CreatedTime.string input.versionCreated, depsString input.dependencies]

/-- Quoting test of the Go encoding/csv writer for a field (specialised
to the default comma delimiter; the first rune space test is restricted
to ASCII whitespace, which covers every field the code produces). -/
def fieldNeedsQuotes (f : String) : Bool :=
  if f = "" then false
  else f == "\\." || f.data.contains ',' || f.data.contains '"' || f.data.contains '\r' || f.data.contains '\n' ||
    (match f.data with
     | c :: _ => c == ' ' || c == '\t'
     | [] => false)

/-- One field as written by the Go encoding/csv writer: quoted with
inner double quotes doubled when needed, verbatim otherwise. -/
def csvField (f : String) : String :=
  if fieldNeedsQuotes f then "\"" ++ (f.replace "\"" "\"\"") ++ "\"" else f

/-- One record as written by the Go encoding/csv writer with default
settings: comma separated fields and a line feed terminator. -/
def csvLine (fields : List String) : String :=
  String.intercalate "," (fields.map csvField) ++ "\n"

/-! ## Streaming path (StreamDecode, lines 301 to 365) -/

/-- Go map indexing of line 335 (timeStamps[number]): a missing key
silently yields the zero value of the element type, here the zero
time. -/
def timeIndex (times : List (String × CreatedTime)) (number : String) : CreatedTime :=
  (times.lookup number).getD CreatedTime.zero

/-- Loop body of StreamDecode for one decoded Entry (lines 332 to 354):
one csv record per version, in the iteration order recorded by the
association list, with the dependency lists filtered by tooLong. -/
def streamEntryRows (e : Entry) : List (List String) :=
  e.doc.versions.map fun p =>
    writeOneToFile
      ⟨e.doc.name, p.1, timeIndex e.doc.time p.1, extractStream p.2.dependencies p.2.devDependencies⟩

/-- Full byte output of one StreamDecode run over the decoded entry
sequence (the per entry flush does not change the written bytes). -/
def streamOutput (es : List Entry) : String :=
  String.join ((es.flatMap streamEntryRows).map csvLine)

/-! ## Bulk array decode (Version.UnmarshalJSON, lines 56 to 72) -/

/-- Version.UnmarshalJSON: the raw bytes are first decoded into a
dynamically typed map (taken here as given, already decoded); the
published_at field is read with an unchecked string assertion (a missing
or non string value panics, none), wrapped in double quotes and decoded
through the CreatedTime unmarshaler, and the number field is then read
with another unchecked string assertion. -/
def Version.unmarshalJSON (dat : List (String × JVal)) : Option Version :=
  match dat.lookup "published_at" with
  | some (.str s) =>
    match CreatedTime.unmarshalJSON ("\"" ++ s ++ "\"") with
    | some date =>
      match dat.lookup "number" with
      | some (.str num) => some ⟨num, date⟩
      | _ => none
    | none => none
  | _ => none

/-! ## Live fetch path (process, lines 210 to 268) -/

/-- Outcome of one iteration of the inner version loop of process. -/
inductive StepResult where
  | written (vd : VersionDependencies)
  | skipped
  | aborted
  deriving DecidableEq

/-- One iteration of the version loop of process (lines 227 to 262),
given the fetched status code and the result of decoding the fetched
bytes into VersionInfo (none when json.Unmarshal fails).  Only a decode
failure consults the status code: 404 skips the version (continue),
anything else aborts the run; on decode success the dependencies are
extracted, where a non string map value panics and therefore also aborts
the run, whatever the status was. -/
def processVersion (name number : String) (date : CreatedTime) (status : Nat)
    (body : Option VersionInfo) : StepResult :=
  match body with
  | none => if status = 404 then .skipped else .aborted
  | some parsed =>
    match extractLive parsed.dependencies parsed.devDependencies with
    | some allDependencies => .written ⟨name, number, date, allDependencies⟩
    | none => .aborted

/-- Events observable at the csv sink of one per package unit of the
live path. -/
inductive UnitEvent where
  | fetch (number : String)
  | write (row : List String)
  | flush
  deriving DecidableEq

/-- Per iteration event batches of the version loop of process for one
package, starting at loop index i: each version is fetched; a written
version is appended to the sink and the writer is flushed when the zero
based loop index is divisible by ten (lines 260 to 262); a skipped
version produces nothing further (continue bypasses the flush test); an
abort terminates the process at once.  After the loop one unconditional
flush follows (line 264). -/
def unitGroups (name : String) (oracle : String → Nat × Option VersionInfo) :
    Nat → List Version → List (List UnitEvent)
  | _, [] => [[.flush]]
  | i, v :: vs =>
    match processVersion name v.number v.publishedAt (oracle v.number).1 (oracle v.number).2 with
    | .written vd =>
      (.fetch v.number :: .write (writeOneToFile vd) ::
        (if i % 10 = 0 then [.flush] else [])) :: unitGroups name oracle (i + 1) vs
    | .skipped => [.fetch v.number] :: unitGroups name oracle (i + 1) vs
    | .aborted => [[.fetch v.number]]

/-- Flat sink event trace of one per package unit of process. -/
def processUnit (name : String) (versions : List Version)
    (oracle : String → Nat × Option VersionInfo) : List UnitEvent :=
  (unitGroups name oracle 0 versions).flatten

/-! ## Fan out path (ingestInternal and versionPrinter, lines 135 to 193) -/

/-- printSinglePackage (lines 185 to 193): one summary record per
version of the package, name, number and the RFC3339Nano rendering of
the publication time, in input order. -/
def printSinglePackage (p : PackageInfo) : List (List String) :=
  p.versions.map fun ver => [p.name, ver.number, CreatedTime.string ver.publishedAt]

/-- Events of an ingestInternal run: version summary records written by
versionPrinter, then dependency resolution records written by the
process units. -/
inductive IngestEvent where
  | summary (row : List String)
  | resolve (row : List String)
  deriving DecidableEq

/-- Event trace of ingestInternal (lines 135 to 161): versionPrinter
runs first and, through its deferred wait (registered after the deferred
close, hence executed before it, and before returning), joins all of its
per package writer goroutines, so every summary record precedes every
resolution record; the concurrent summary writers interleave, so the
summary sequence is some permutation of the per package record lists. -/
def ingestEvents (summaryRows resolveRows : List (List String)) : List IngestEvent :=
  summaryRows.map .summary ++ resolveRows.map .resolve

/-! ## JSON marshalling (lines 50 to 53 and 74 to 76)

Go json.Marshal dispatches to the MarshalJSON method of any type
implementing the Marshaler interface.  CreatedTime.MarshalJSON returns
json.Marshal applied to its own receiver, and Version.MarshalJSON does
the same, so each call re-enters itself with no base case.  The fuel
argument counts the remaining call depth; none means that no result is
produced within that depth. -/

/-- Fuel indexed model of json.Marshal on a CreatedTime value: every
call immediately re-enters itself through CreatedTime.MarshalJSON. -/
def jsonMarshalCreatedTime (ct : CreatedTime) : Nat → Option String
  | 0 => none
  | fuel + 1 => jsonMarshalCreatedTime ct fuel

/-- Fuel indexed model of json.Marshal on a Version value: every call
immediately re-enters itself through Version.MarshalJSON. -/
def jsonMarshalVersion (v : Version) : Nat → Option String
  | 0 => none
  | fuel + 1 => jsonMarshalVersion v fuel

/-! ## Helper lemmas -/

theorem assertAllStrings_length {l : List (String × JVal)} {r : List Dependency}
    (h : assertAllStrings l = some r) : r.length = l.length := by
  induction l generalizing r with
  | nil => simp [assertAllStrings] at h; simp [← h]
  | cons p rest ih =>
    obtain ⟨k, v⟩ := p
    cases v with
    | str s =>
      simp only [assertAllStrings, Option.map_eq_some'] at h
      obtain ⟨tail, htail, hr⟩ := h
      simp [← hr, ih htail]
    | num n => simp [assertAllStrings] at h
    | boolean b => simp [assertAllStrings] at h
    | null => simp [assertAllStrings] at h

theorem assertAllStrings_total {l : List (String × JVal)}
    (h : ∀ p ∈ l, ∃ s, p.2 = JVal.str s) : ∃ r, assertAllStrings l = some r := by
  induction l with
  | nil => exact ⟨[], rfl⟩
  | cons p rest ih =>
    obtain ⟨s, hs⟩ := h p (by simp)
    obtain ⟨r, hr⟩ := ih (fun q hq => h q (by simp [hq]))
    obtain ⟨k, v⟩ := p
    simp only at hs
    subst hs
    exact ⟨⟨k, s⟩ :: r, by simp [assertAllStrings, hr]⟩

/-! ## C1 -/

/-- C1 (amended): the 10000 character guard is applied only on the
streaming path.  There, if every name and range is short enough the
output length is the sum of the two map sizes, every oversized entry is
absent and every other entry is present.  On the live fetch path nothing
is filtered: whenever extraction succeeds its output length is always
the sum of the two map sizes, oversized entries included. -/
theorem extractor_filter_corrected :
    (∀ deps devDeps : List (String × String),
        (∀ p ∈ deps, tooLong p.1 p.2 = false) → (∀ p ∈ devDeps, tooLong p.1 p.2 = false) →
        (extractStream deps devDeps).length = deps.length + devDeps.length) ∧
    (∀ deps devDeps : List (String × String), ∀ p : String × String,
        (p ∈ deps ∨ p ∈ devDeps) → tooLong p.1 p.2 = true →
        Dependency.mk p.1 p.2 ∉ extractStream deps devDeps) ∧
    (∀ deps devDeps : List (String × String), ∀ p : String × String,
        (p ∈ deps ∨ p ∈ devDeps) → tooLong p.1 p.2 = false →
        Dependency.mk p.1 p.2 ∈ extractStream deps devDeps) ∧
    (∀ deps devDeps : List (String × JVal), ∀ res : List Dependency,
        extractLive deps devDeps = some res → res.length = deps.length + devDeps.length) := by
  refine ⟨?_, ?_, ?_, ?_⟩
  · intro deps devDeps h1 h2
    rw [extractStream, List.filter_eq_self.mpr (by simpa using h1),
      List.filter_eq_self.mpr (by simpa using h2)]
    simp
  · rintro deps devDeps p hp hlong hmem
    simp only [extractStream, List.mem_append, List.mem_map, List.mem_filter,
      Bool.not_eq_true'] at hmem
    rcases hmem with ⟨q, ⟨_, hq⟩, he⟩ | ⟨q, ⟨_, hq⟩, he⟩ <;>
    · rw [Dependency.mk.injEq] at he
      obtain ⟨h1, h2⟩ := he
      rw [h1, h2] at hq
      rw [hq] at hlong
      exact Bool.false_ne_true hlong
  · rintro deps devDeps p hp hshort
    rcases hp with hp | hp
    · exact List.mem_append_left _ (List.mem_map_of_mem _ (List.mem_filter.mpr ⟨hp, by simp [hshort]⟩))
    · exact List.mem_append_right _ (List.mem_map_of_mem _ (List.mem_filter.mpr ⟨hp, by simp [hshort]⟩))
  · intro deps devDeps res h
    simp only [extractLive, bind, Option.bind] at h
    cases ha : assertAllStrings deps with
    | none => rw [ha] at h; simp at h
    | some a =>
      rw [ha] at h
      cases hb : assertAllStrings devDeps with
      | none => rw [hb] at h; simp at h
      | some b =>
        rw [hb] at h
        simp only [pure, Option.some_inj] at h
        subst h
        simp [assertAllStrings_length ha, assertAllStrings_length hb]

/-- Name of 10001 characters, as in the corrupt dump entries the guard
was written for. -/
def longName : String := ⟨List.replicate 10001 'a'⟩

/-- C1 (counterexample): on the live fetch path an entry whose name has
10001 characters is kept, refuting the part of the claim asserting that
the oversized entry is absent from the output of the live fetch
extractor as well. -/
theorem extractor_filter_counterexample :
    tooLong longName "1.0.0" = true ∧
    extractLive [(longName, JVal.str "1.0.0")] [] = some [⟨longName, "1.0.0"⟩] := by
  constructor
  · have h : longName.length = 10001 := by
      show (List.replicate 10001 'a').length = 10001
      rw [List.length_replicate]
    simp only [tooLong, decide_eq_true_eq]
    left
    rw [h]
    norm_num
  · rfl

/-- C1 (witness): the main theorem applied at a concrete two entry
streaming input with short names and at a concrete live fetch input. -/
theorem extractor_filter_witness :
    (extractStream [("a", "1")] [("b", "2")]).length = 2 ∧
    Dependency.mk "a" "1" ∈ extractStream [("a", "1")] [("b", "2")] ∧
    [Dependency.mk "a" "1"].length = [("a", JVal.str "1")].length + ([] : List (String × JVal)).length := by
  refine ⟨?_, ?_, ?_⟩
  · simpa using extractor_filter_corrected.1 [("a", "1")] [("b", "2")] (by decide) (by decide)
  · exact extractor_filter_corrected.2.2.1 [("a", "1")] [("b", "2")] ("a", "1")
      (Or.inl (by simp)) (by decide)
  · exact extractor_filter_corrected.2.2.2 [("a", JVal.str "1")] [] [⟨"a", "1"⟩] rfl

/-! ## C2 -/

/-- C2 (amended): the extractor never fails as long as every range value
of the live fetch maps is a JSON string, and an empty input yields an
empty output on both paths; but a non string range value on the live
fetch path makes the extraction panic (see the counterexample), so
totality over all dynamically typed inputs does not hold. -/
theorem extractor_total_corrected :
    (∀ deps devDeps : List (String × JVal),
        (∀ p ∈ deps, ∃ s, p.2 = JVal.str s) → (∀ p ∈ devDeps, ∃ s, p.2 = JVal.str s) →
        ∃ res, extractLive deps devDeps = some res) ∧
    extractLive [] [] = some [] ∧
    extractStream [] [] = [] := by
  refine ⟨?_, rfl, rfl⟩
  intro deps devDeps h1 h2
  obtain ⟨a, ha⟩ := assertAllStrings_total h1
  obtain ⟨b, hb⟩ := assertAllStrings_total h2
  exact ⟨a ++ b, by simp [extractLive, ha, hb]⟩

/-- C2 (counterexample): a live fetch dependency map with a numeric
range value makes the extractor fail (the unchecked string type
assertion of process panics), refuting the claim that the extractor is
total for inputs with non string range values. -/
theorem extractor_total_counterexample :
    extractLive [("a", JVal.num 5)] [] = none := rfl

/-- C2 (witness): the main theorem applied at a concrete one entry live
fetch input whose value is a string, and at the empty input. -/
theorem extractor_total_witness :
    (∃ res, extractLive [("a", JVal.str "1.0.0")] [] = some res) ∧
    extractLive [] [] = some [] := by
  refine ⟨?_, extractor_total_corrected.2.1⟩
  exact extractor_total_corrected.1 [("a", JVal.str "1.0.0")] []
    (by intro p hp; simp at hp; exact ⟨"1.0.0", by simp [hp]⟩) (by simp)

/-! ## C3 -/

/-- C3 (amended): the skip or abort decision of the live fetch loop is
driven by the JSON decode outcome, not by the status code alone.  When
decoding the fetched body fails, status 404 skips the version and any
other status aborts the run; when decoding succeeds the version is
processed and written regardless of the status code (assuming string
range values), so a non 2xx status whose body still decodes does not
abort. -/
theorem fetch_error_policy_corrected :
    ∀ (name number : String) (date : CreatedTime) (status : Nat) (parsed : VersionInfo),
      (status = 404 → processVersion name number date status none = .skipped) ∧
      (status ≠ 404 → processVersion name number date status none = .aborted) ∧
      ((∀ p ∈ parsed.dependencies, ∃ s, p.2 = JVal.str s) →
        (∀ p ∈ parsed.devDependencies, ∃ s, p.2 = JVal.str s) →
        ∃ vd, processVersion name number date status (some parsed) = .written vd) := by
  intro name number date status parsed
  refine ⟨fun h => by simp [processVersion, h], fun h => by simp [processVersion, h], ?_⟩
  intro h1 h2
  obtain ⟨a, ha⟩ := assertAllStrings_total h1
  obtain ⟨b, hb⟩ := assertAllStrings_total h2
  refine ⟨⟨name, number, date, a ++ b⟩, ?_⟩
  simp [processVersion, extractLive, ha, hb]

/-- C3 (counterexample): a fetch that returns status 500 with a body
that still decodes into an empty VersionInfo is processed and written,
not aborted, refuting the claim that every non 404 non 2xx status aborts
the entire run. -/
theorem fetch_error_policy_counterexample :
    processVersion "left-pad" "1.0.0" CreatedTime.zero 500 (some ⟨[], []⟩) =
      StepResult.written ⟨"left-pad", "1.0.0", CreatedTime.zero, []⟩ ∧
    StepResult.written ⟨"left-pad", "1.0.0", CreatedTime.zero, []⟩ ≠ StepResult.aborted := by
  exact ⟨rfl, by decide⟩

/-- C3 (witness): the main theorem applied at status 404 and status 500
with an undecodable body, and at a decodable body. -/
theorem fetch_error_policy_witness :
    processVersion "p" "1.0.0" CreatedTime.zero 404 none = StepResult.skipped ∧
    processVersion "p" "1.0.0" CreatedTime.zero 500 none = StepResult.aborted ∧
    (∃ vd, processVersion "p" "1.0.0" CreatedTime.zero 200 (some ⟨[], []⟩) = StepResult.written vd) := by
  refine ⟨?_, ?_, ?_⟩
  · exact (fetch_error_policy_corrected "p" "1.0.0" CreatedTime.zero 404 ⟨[], []⟩).1 rfl
  · exact (fetch_error_policy_corrected "p" "1.0.0" CreatedTime.zero 500 ⟨[], []⟩).2.1 (by decide)
  · exact (fetch_error_policy_corrected "p" "1.0.0" CreatedTime.zero 200 ⟨[], []⟩).2.2
      (by simp) (by simp)

/-! ## C4 -/

/-- C4 (amended): for the left-pad input version with publication time
2015-03-17T00:00:00.000Z and a fetched body with empty dependency maps,
the sink writes the record with fields left-pad, 1.0.0,
2015-03-17T00:00:00Z and [], encoded as the line
left-pad,1.0.0,2015-03-17T00:00:00Z,[] with no quoting: the RFC3339Nano
layout drops trailing fractional zeros rather than printing nine
fractional digits. -/
theorem leftpad_row_corrected :
    Version.unmarshalJSON
        [("number", JVal.str "1.0.0"), ("published_at", JVal.str "2015-03-17T00:00:00.000Z")] =
      some ⟨"1.0.0", ⟨2015, 3, 17, 0, 0, 0, 0, 0⟩⟩ ∧
    processVersion "left-pad" "1.0.0" ⟨2015, 3, 17, 0, 0, 0, 0, 0⟩ 200 (some ⟨[], []⟩) =
      StepResult.written ⟨"left-pad", "1.0.0", ⟨2015, 3, 17, 0, 0, 0, 0, 0⟩, []⟩ ∧
    writeOneToFile ⟨"left-pad", "1.0.0", ⟨2015, 3, 17, 0, 0, 0, 0, 0⟩, []⟩ =
      ["left-pad", "1.0.0", "2015-03-17T00:00:00Z", "[]"] ∧
    csvLine ["left-pad", "1.0.0", "2015-03-17T00:00:00Z", "[]"] =
      "left-pad,1.0.0,2015-03-17T00:00:00Z,[]\n" := by
  refine ⟨by decide, rfl, by decide, by decide⟩

/-- C4 (counterexample): the produced record does not carry the claimed
nine fractional digit timestamp, and the encoded line differs from the
claimed row. -/
theorem leftpad_row_counterexample :
    CreatedTime.string ⟨2015, 3, 17, 0, 0, 0, 0, 0⟩ ≠ "2015-03-17T00:00:00.000000000Z" ∧
    csvLine (writeOneToFile ⟨"left-pad", "1.0.0", ⟨2015, 3, 17, 0, 0, 0, 0, 0⟩, []⟩) ≠
      "left-pad,1.0.0,2015-03-17T00:00:00.000000000Z,\"[]\"\n" := by
  exact ⟨by decide, by decide⟩

/-! ## C9 -/

/-- C9 (amended): on the bulk array decode path a missing published_at
field makes Version.UnmarshalJSON panic rather than produce a default,
and every successfully decoded Version carries a publication time parsed
from the given string; but on the streaming path the per version time
lookup silently substitutes the zero time for a missing key, so absence
is not representable there and is defaulted. -/
theorem published_at_default_corrected :
    (∀ dat : List (String × JVal), dat.lookup "published_at" = none →
        Version.unmarshalJSON dat = none) ∧
    (∀ (dat : List (String × JVal)) (v : Version), Version.unmarshalJSON dat = some v →
        ∃ s, dat.lookup "published_at" = some (JVal.str s) ∧
          CreatedTime.unmarshalJSON ("\"" ++ s ++ "\"") = some v.publishedAt) ∧
    (∀ (times : List (String × CreatedTime)) (number : String),
        times.lookup number = none → timeIndex times number = CreatedTime.zero) := by
  refine ⟨?_, ?_, ?_⟩
  · intro dat h
    simp [Version.unmarshalJSON, h]
  · intro dat v h
    unfold Version.unmarshalJSON at h
    split at h
    · rename_i s heq
      split at h
      · rename_i date hdate
        split at h
        · rename_i num hnum
          simp only [Option.some_inj] at h
          refine ⟨s, heq, ?_⟩
          rw [← h]
          exact hdate
        · simp at h
      · simp at h
    · simp at h
  · intro times number h
    simp [timeIndex, h]

/-- C9 (counterexample): in the streaming path an entry whose version is
absent from the time map produces a record carrying the zero time
0001-01-01T00:00:00Z, indistinguishable from a version whose recorded
time really is the zero time: the absence is silently replaced by a
default, refuting the claim for the streaming per version time
lookup. -/
theorem published_at_default_counterexample :
    timeIndex [] "1.0.0" = CreatedTime.zero ∧
    timeIndex [("1.0.0", CreatedTime.zero)] "1.0.0" = CreatedTime.zero ∧
    streamEntryRows ⟨⟨"left-pad", [("1.0.0", ⟨"1.0.0", [], []⟩)], []⟩⟩ =
      [["left-pad", "1.0.0", "0001-01-01T00:00:00Z", "[]"]] := by
  refine ⟨rfl, by decide, by decide⟩

/-- C9 (witness): the main theorem applied at a concrete map without a
published_at key, at a concrete successful decode, and at an empty time
map. -/
theorem published_at_default_witness :
    Version.unmarshalJSON [("number", JVal.str "1.0.0")] = none ∧
    (∃ s, ([("published_at", JVal.str "2015-03-17T00:00:00.000Z"), ("number", JVal.str "1.0.0")].lookup "published_at" = some (JVal.str s) ∧
      CreatedTime.unmarshalJSON ("\"" ++ s ++ "\"") =
        some (Version.mk "1.0.0" ⟨2015, 3, 17, 0, 0, 0, 0, 0⟩).publishedAt)) ∧
    timeIndex [("2.0.0", CreatedTime.zero)] "1.0.0" = CreatedTime.zero := by
  refine ⟨?_, ?_, ?_⟩
  · exact published_at_default_corrected.1 [("number", JVal.str "1.0.0")] (by decide)
  · exact published_at_default_corrected.2.1
      [("published_at", JVal.str "2015-03-17T00:00:00.000Z"), ("number", JVal.str "1.0.0")]
      ⟨"1.0.0", ⟨2015, 3, 17, 0, 0, 0, 0, 0⟩⟩ (by decide)
  · exact published_at_default_corrected.2.2 [("2.0.0", CreatedTime.zero)] "1.0.0" (by decide)

/-! ## C10 -/

/-- C10 (confirmed): serializing a CreatedTime or a Version value back
to JSON diverges: both MarshalJSON methods re-enter json.Marshal on
their own receiver, so no call depth suffices to produce a result. -/
theorem marshal_divergence :
    ∀ (ct : CreatedTime) (v : Version) (fuel : Nat),
      jsonMarshalCreatedTime ct fuel = none ∧ jsonMarshalVersion v fuel = none := by
  intro ct v fuel
  induction fuel with
  | zero => exact ⟨rfl, rfl⟩
  | succ n ih => exact ⟨by rw [jsonMarshalCreatedTime, ih.1], by rw [jsonMarshalVersion, ih.2]⟩

/-! ## C7 -/

theorem flatMap_printSinglePackage_length (arr : List PackageInfo) :
    (arr.flatMap printSinglePackage).length = (arr.map fun p => p.versions.length).sum := by
  induction arr with
  | nil => rfl
  | cons p l ih => simp [printSinglePackage, ih]

/-- C7 (confirmed): versionPrinter writes one summary record per version
of every package, so however its concurrent per package writers
interleave (any permutation of the concatenated per package record
lists), the number of summary records equals the total number of
versions over all packages; and since ingestInternal only launches the
per package resolution units after versionPrinter has returned (its
deferred wait joins every writer goroutine before the deferred close and
before returning), every summary record precedes every resolution record
in the run trace. -/
theorem version_summary_count :
    ∀ (arr : List PackageInfo) (summaryRows resolveRows : List (List String)),
      summaryRows.Perm (arr.flatMap printSinglePackage) →
      summaryRows.length = (arr.map fun p => p.versions.length).sum ∧
      (∀ (i j : Nat) (r1 r2 : List String),
        (ingestEvents summaryRows resolveRows).get? i = some (.summary r1) →
        (ingestEvents summaryRows resolveRows).get? j = some (.resolve r2) → i < j) := by
  intro arr summaryRows resolveRows hperm
  constructor
  · rw [hperm.length_eq]
    exact flatMap_printSinglePackage_length arr
  · intro i j r1 r2 hi hj
    have hlenA : (summaryRows.map IngestEvent.summary).length = summaryRows.length :=
      List.length_map _ _
    have hiA : i < (summaryRows.map IngestEvent.summary).length := by
      by_contra hge
      push_neg at hge
      rw [ingestEvents, List.get?_append_right hge] at hi
      rw [List.get?_map] at hi
      cases hr : resolveRows.get? (i - (summaryRows.map IngestEvent.summary).length) with
      | none => rw [hr] at hi; simp at hi
      | some row => rw [hr] at hi; simp at hi
    have hjB : (summaryRows.map IngestEvent.summary).length ≤ j := by
      by_contra hlt
      push_neg at hlt
      rw [ingestEvents, List.get?_append hlt] at hj
      rw [List.get?_map] at hj
      cases hr : summaryRows.get? j with
      | none => rw [hr] at hj; simp at hj
      | some row => rw [hr] at hj; simp at hj
    omega

/-- C7 (witness): the main theorem applied to a concrete two package
input with three versions in total, the summary records written in the
canonical order. -/
theorem version_summary_count_witness :
    (([(⟨"p", [⟨"1", CreatedTime.zero⟩, ⟨"2", CreatedTime.zero⟩]⟩ : PackageInfo),
       ⟨"q", [⟨"3", CreatedTime.zero⟩]⟩].flatMap printSinglePackage).length = 3) := by
  have h := version_summary_count
      [⟨"p", [⟨"1", CreatedTime.zero⟩, ⟨"2", CreatedTime.zero⟩]⟩, ⟨"q", [⟨"3", CreatedTime.zero⟩]⟩]
      ([(⟨"p", [⟨"1", CreatedTime.zero⟩, ⟨"2", CreatedTime.zero⟩]⟩ : PackageInfo),
        ⟨"q", [⟨"3", CreatedTime.zero⟩]⟩].flatMap printSinglePackage)
      [["r"]] (List.Perm.refl _)
  simpa using h.1

/-! ## C8 -/

/-- Selects the fetched version number of a fetch event. -/
def fetchNumber : UnitEvent → Option String
  | .fetch n => some n
  | _ => none

theorem unitGroups_filterMap_fetch (name : String) (oracle : String → Nat × Option VersionInfo)
    (versions : List Version) (i0 : Nat)
    (h : ∀ v ∈ versions,
      processVersion name v.number v.publishedAt (oracle v.number).1 (oracle v.number).2 ≠ .aborted) :
    ((unitGroups name oracle i0 versions).flatten).filterMap fetchNumber =
      versions.map (fun v => v.number) := by
  induction versions generalizing i0 with
  | nil => rfl
  | cons v vs ih =>
    have hv := h v (by simp)
    cases hpv : processVersion name v.number v.publishedAt (oracle v.number).1 (oracle v.number).2 with
    | written vd =>
      by_cases h10 : i0 % 10 = 0 <;>
        simp [unitGroups, hpv, h10, fetchNumber, ih (i0 + 1) (fun w hw => h w (by simp [hw]))]
    | skipped =>
      simp [unitGroups, hpv, fetchNumber, ih (i0 + 1) (fun w hw => h w (by simp [hw]))]
    | aborted => exact absurd hpv hv

theorem unitGroups_getLast_flush (name : String) (oracle : String → Nat × Option VersionInfo)
    (versions : List Version) (i0 : Nat)
    (h : ∀ v ∈ versions,
      processVersion name v.number v.publishedAt (oracle v.number).1 (oracle v.number).2 ≠ .aborted) :
    ((unitGroups name oracle i0 versions).flatten).getLast? = some UnitEvent.flush := by
  induction versions generalizing i0 with
  | nil => rfl
  | cons v vs ih =>
    have hv := h v (by simp)
    have htail := ih (i0 + 1) (fun w hw => h w (by simp [hw]))
    have hne : ((unitGroups name oracle (i0 + 1) vs).flatten) ≠ [] := by
      intro he
      rw [he] at htail
      simp at htail
    cases hpv : processVersion name v.number v.publishedAt (oracle v.number).1 (oracle v.number).2 with
    | written vd =>
      rw [unitGroups, hpv]
      simp only [List.flatten_cons]
      rw [List.getLast?_append_of_ne_nil _ hne]
      exact htail
    | skipped =>
      rw [unitGroups, hpv]
      simp only [List.flatten_cons]
      rw [List.getLast?_append_of_ne_nil _ hne]
      exact htail
    | aborted => exact absurd hpv hv

theorem unitGroups_flush_mem (name : String) (oracle : String → Nat × Option VersionInfo)
    (versions : List Version) (i0 i : Nat) (v : Version) (g : List UnitEvent)
    (hv : versions.get? i = some v) (hg : (unitGroups name oracle i0 versions).get? i = some g) :
    UnitEvent.flush ∈ g ↔ ((i0 + i) % 10 = 0 ∧
      ∃ vd, processVersion name v.number v.publishedAt (oracle v.number).1 (oracle v.number).2 =
        .written vd) := by
  induction versions generalizing i0 i with
  | nil => simp at hv
  | cons w vs ih =>
    cases i with
    | zero =>
      simp only [List.get?_cons_zero, Option.some_inj] at hv
      subst hv
      cases hpv : processVersion name w.number w.publishedAt (oracle w.number).1 (oracle w.number).2 with
      | written vd =>
        rw [unitGroups, hpv] at hg
        simp only [List.get?_cons_zero, Option.some_inj] at hg
        subst hg
        by_cases h10 : i0 % 10 = 0 <;> simp [h10, hpv]
      | skipped =>
        rw [unitGroups, hpv] at hg
        simp only [List.get?_cons_zero, Option.some_inj] at hg
        subst hg
        simp [hpv]
      | aborted =>
        rw [unitGroups, hpv] at hg
        simp only [List.get?_cons_zero, Option.some_inj] at hg
        subst hg
        simp [hpv]
    | succ n =>
      simp only [List.get?_cons_succ] at hv
      cases hpv : processVersion name w.number w.publishedAt (oracle w.number).1 (oracle w.number).2 with
      | written vd =>
        rw [unitGroups, hpv] at hg
        simp only [List.get?_cons_succ] at hg
        have := ih (i0 + 1) n hv hg
        rwa [show i0 + 1 + n = i0 + (n + 1) by omega] at this
      | skipped =>
        rw [unitGroups, hpv] at hg
        simp only [List.get?_cons_succ] at hg
        have := ih (i0 + 1) n hv hg
        rwa [show i0 + 1 + n = i0 + (n + 1) by omega] at this
      | aborted =>
        rw [unitGroups, hpv] at hg
        simp at hg

/-- C8 (amended): within one per package unit of the live path the
versions are indeed processed strictly sequentially in input order
(assuming no version aborts the run): the fetch events of the unit trace
list exactly the version numbers in input order, and the sink is flushed
unconditionally once more at the end of the unit.  The periodic flush,
however, fires after the versions with zero based loop index divisible
by ten, that is after the 1st, 11th, 21st version, and only when that
version was actually written, not after every 10th version
processed. -/
theorem unit_flush_schedule_corrected :
    ∀ (name : String) (oracle : String → Nat × Option VersionInfo) (versions : List Version),
      (∀ v ∈ versions,
        processVersion name v.number v.publishedAt (oracle v.number).1 (oracle v.number).2 ≠ .aborted) →
      ((processUnit name versions oracle).filterMap fetchNumber = versions.map (fun v => v.number) ∧
       (processUnit name versions oracle).getLast? = some UnitEvent.flush ∧
       (∀ (i : Nat) (v : Version) (g : List UnitEvent),
          versions.get? i = some v → (unitGroups name oracle 0 versions).get? i = some g →
          (UnitEvent.flush ∈ g ↔ (i % 10 = 0 ∧
            ∃ vd, processVersion name v.number v.publishedAt (oracle v.number).1 (oracle v.number).2 =
              .written vd)))) := by
  intro name oracle versions h
  refine ⟨unitGroups_filterMap_fetch name oracle versions 0 h,
    unitGroups_getLast_flush name oracle versions 0 h, ?_⟩
  intro i v g hv hg
  simpa using unitGroups_flush_mem name oracle versions 0 i v g hv hg

/-- C8 (counterexample): in a unit of eleven versions that all succeed,
the group of sink events of the 10th version (zero based index 9)
contains no flush: the writer is flushed after the 1st and the 11th
version, not after every 10th version processed, refuting the claimed
flush schedule. -/
theorem unit_flush_schedule_counterexample :
    (unitGroups "p" (fun _ => (200, some ⟨[], []⟩)) 0
        [⟨"1", CreatedTime.zero⟩, ⟨"2", CreatedTime.zero⟩, ⟨"3", CreatedTime.zero⟩,
         ⟨"4", CreatedTime.zero⟩, ⟨"5", CreatedTime.zero⟩, ⟨"6", CreatedTime.zero⟩,
         ⟨"7", CreatedTime.zero⟩, ⟨"8", CreatedTime.zero⟩, ⟨"9", CreatedTime.zero⟩,
         ⟨"10", CreatedTime.zero⟩, ⟨"11", CreatedTime.zero⟩]).get? 9 =
      some [UnitEvent.fetch "10", UnitEvent.write ["p", "10", "0001-01-01T00:00:00Z", "[]"]] ∧
    UnitEvent.flush ∉
      [UnitEvent.fetch "10", UnitEvent.write ["p", "10", "0001-01-01T00:00:00Z", "[]"]] := by
  exact ⟨by decide, by decide⟩

/-- C8 (witness): the main theorem applied to a concrete two version
unit whose fetches all succeed. -/
theorem unit_flush_schedule_witness :
    (processUnit "p" [⟨"1", CreatedTime.zero⟩, ⟨"2", CreatedTime.zero⟩]
        (fun _ => (200, some ⟨[], []⟩))).filterMap fetchNumber = ["1", "2"] ∧
    (processUnit "p" [⟨"1", CreatedTime.zero⟩, ⟨"2", CreatedTime.zero⟩]
        (fun _ => (200, some ⟨[], []⟩))).getLast? = some UnitEvent.flush := by
  have h := unit_flush_schedule_corrected "p" (fun _ => (200, some ⟨[], []⟩))
      [⟨"1", CreatedTime.zero⟩, ⟨"2", CreatedTime.zero⟩] (by decide)
  exact ⟨by simpa using h.1, h.2.1⟩

/-! ## C6 -/

/-- Multiset of dependencies extracted on the streaming path; the
multiset forgets the iteration order of the two Go maps. -/
def depMultiset (deps devDeps : List (String × String)) : Multiset Dependency :=
  (extractStream deps devDeps : Multiset Dependency)

/-- Order forgetting view of one streamed output record: package name,
version number, looked up time, and the dependency multiset. -/
def rowKey (name : String) (times : List (String × CreatedTime)) (p : String × VersionData) :
    String × String × CreatedTime × Multiset Dependency :=
  (name, p.1, timeIndex times p.1, depMultiset p.2.dependencies p.2.devDependencies)

/-- Multiset of order forgetting record views produced for one streamed
entry. -/
def entryRowKeys (e : Entry) : Multiset (String × String × CreatedTime × Multiset Dependency) :=
  (e.doc.versions.map (rowKey e.doc.name e.doc.time) : Multiset _)

/-- Multiset of order forgetting record views of a whole streaming
run. -/
def runRowKeys (es : List Entry) : Multiset (String × String × CreatedTime × Multiset Dependency) :=
  (es.map entryRowKeys).sum

/-- Two VersionData values decoded from the same JSON maps in two runs:
equal version field, and each dependency map holds the same entries,
possibly iterated in a different order. -/
def VDEquiv (a b : VersionData) : Prop :=
  a.version = b.version ∧ a.dependencies.Perm b.dependencies ∧
    a.devDependencies.Perm b.devDependencies

/-- Two iteration sequences of the same versions map: a permutation of
pairwise equivalent entries with equal keys. -/
def VersionsEquiv (v1 v2 : List (String × VersionData)) : Prop :=
  ∃ mid, List.Forall₂ (fun p q => p.1 = q.1 ∧ VDEquiv p.2 q.2) v1 mid ∧ mid.Perm v2

/-- Two decodes of the same streamed package document in two runs: the
name and the time map agree (the time map is only indexed, never
iterated), while the versions map may be iterated in any order. -/
def EntryEquiv (e1 e2 : Entry) : Prop :=
  e1.doc.name = e2.doc.name ∧ e1.doc.time = e2.doc.time ∧
    VersionsEquiv e1.doc.versions e2.doc.versions

/-- Two streaming runs over the same input document: the decoder yields
the entries in the same (document) order, each decoded up to map
iteration order. -/
def RunsEquiv (es1 es2 : List Entry) : Prop := List.Forall₂ EntryEquiv es1 es2

theorem depMultiset_congr {d1 d2 dd1 dd2 : List (String × String)}
    (h1 : d1.Perm d2) (h2 : dd1.Perm dd2) : depMultiset d1 dd1 = depMultiset d2 dd2 := by
  apply Multiset.coe_eq_coe.mpr
  unfold extractStream
  exact ((h1.filter _).map _).append ((h2.filter _).map _)

theorem rowKey_congr (name : String) (times : List (String × CreatedTime))
    {p q : String × VersionData} (h1 : p.1 = q.1) (h2 : VDEquiv p.2 q.2) :
    rowKey name times p = rowKey name times q := by
  obtain ⟨hv, hd, hdd⟩ := h2
  unfold rowKey
  rw [h1, depMultiset_congr hd hdd]

theorem map_eq_of_forall₂ {α β : Type} {f : α → β} {l1 l2 : List α}
    (h : List.Forall₂ (fun a b => f a = f b) l1 l2) : l1.map f = l2.map f := by
  induction h with
  | nil => rfl
  | cons hab _ ih => simp [hab, ih]

theorem entryRowKeys_congr {e1 e2 : Entry} (h : EntryEquiv e1 e2) :
    entryRowKeys e1 = entryRowKeys e2 := by
  obtain ⟨hn, ht, mid, hf, hp⟩ := h
  unfold entryRowKeys
  rw [hn, ht]
  have hmap : e1.doc.versions.map (rowKey e2.doc.name e2.doc.time) =
      mid.map (rowKey e2.doc.name e2.doc.time) :=
    map_eq_of_forall₂ (hf.imp (fun _ _ hpq => rowKey_congr _ _ hpq.1 hpq.2))
  rw [hmap]
  exact Multiset.coe_eq_coe.mpr (hp.map _)

theorem runRowKeys_cons (e : Entry) (es : List Entry) :
    runRowKeys (e :: es) = entryRowKeys e + runRowKeys es := by
  simp [runRowKeys]

/-- C6 (amended): the streaming ingester is deterministic only up to the
iteration order of the Go maps it ranges over: two runs over the same
input document produce the same multiset of records, each record taken
up to the order of its dependency list; byte identical output is not
guaranteed (see the counterexample, where two admissible iteration
orders yield different bytes). -/
theorem stream_rows_multiset_corrected :
    ∀ es1 es2 : List Entry, RunsEquiv es1 es2 → runRowKeys es1 = runRowKeys es2 := by
  intro es1 es2 h
  induction h with
  | nil => rfl
  | cons hab _ ih => rw [runRowKeys_cons, runRowKeys_cons, entryRowKeys_congr hab, ih]

/-- C6 (counterexample): two runs of the streaming ingester over the
same one package document, differing only in the iteration order of the
dependency map (both orders are admissible for a Go map, whose iteration
order is randomized per run), produce different bytes: the claim of byte
identical reruns is false.  The VersionData constructor fields are
version, devDependencies, dependencies. -/
theorem stream_determinism_counterexample :
    RunsEquiv
      [⟨⟨"p", [("1.0.0", ⟨"1.0.0", [], [("a", "1"), ("b", "2")]⟩)],
        [("1.0.0", ⟨2020, 1, 1, 0, 0, 0, 0, 0⟩)]⟩⟩]
      [⟨⟨"p", [("1.0.0", ⟨"1.0.0", [], [("b", "2"), ("a", "1")]⟩)],
        [("1.0.0", ⟨2020, 1, 1, 0, 0, 0, 0, 0⟩)]⟩⟩] ∧
    streamOutput
      [⟨⟨"p", [("1.0.0", ⟨"1.0.0", [], [("a", "1"), ("b", "2")]⟩)],
        [("1.0.0", ⟨2020, 1, 1, 0, 0, 0, 0, 0⟩)]⟩⟩] ≠
    streamOutput
      [⟨⟨"p", [("1.0.0", ⟨"1.0.0", [], [("b", "2"), ("a", "1")]⟩)],
        [("1.0.0", ⟨2020, 1, 1, 0, 0, 0, 0, 0⟩)]⟩⟩] := by
  constructor
  · refine List.Forall₂.cons ⟨rfl, rfl, ?_⟩ List.Forall₂.nil
    exact ⟨[("1.0.0", ⟨"1.0.0", [], [("b", "2"), ("a", "1")]⟩)],
      List.Forall₂.cons ⟨rfl, rfl, by decide, by decide⟩ List.Forall₂.nil, by decide⟩
  · decide

/-- C6 (witness): the multiset theorem applied to the two concrete runs
of the counterexample input, discharging the run equivalence there. -/
theorem stream_rows_multiset_witness :
    runRowKeys
      [⟨⟨"p", [("1.0.0", ⟨"1.0.0", [], [("a", "1"), ("b", "2")]⟩)],
        [("1.0.0", ⟨2020, 1, 1, 0, 0, 0, 0, 0⟩)]⟩⟩] =
    runRowKeys
      [⟨⟨"p", [("1.0.0", ⟨"1.0.0", [], [("b", "2"), ("a", "1")]⟩)],
        [("1.0.0", ⟨2020, 1, 1, 0, 0, 0, 0, 0⟩)]⟩⟩] := by
  apply stream_rows_multiset_corrected
  refine List.Forall₂.cons ⟨rfl, rfl, ?_⟩ List.Forall₂.nil
  exact ⟨[("1.0.0", ⟨"1.0.0", [], [("b", "2"), ("a", "1")]⟩)],
    List.Forall₂.cons ⟨rfl, rfl, by decide, by decide⟩ List.Forall₂.nil, by decide⟩

/-! ## C5 -/

/-- Field ranges guaranteed for every time produced by the RFC3339
parser. -/
def CreatedTime.Valid (t : CreatedTime) : Prop :=
  t.year ≤ 9999 ∧ 1 ≤ t.month ∧ t.month ≤ 12 ∧ 1 ≤ t.day ∧ t.day ≤ daysIn t.month t.year ∧
    t.hour ≤ 23 ∧ t.minute ≤ 59 ∧ t.second ≤ 59 ∧ t.nanos < 10 ^ 9 ∧ t.offset.natAbs ≤ 1439

theorem toDigit_le {c : Char} {d : Nat} (h : toDigit c = some d) : d ≤ 9 := by
  unfold toDigit at h
  split at h
  · rename_i hc
    simp only [Option.some_inj] at h
    omega
  · simp at h

theorem read2_le {s : List Char} {v : Nat} {r : List Char} (h : read2 s = some (v, r)) :
    v ≤ 99 := by
  unfold read2 at h
  split at h
  · split at h
    · rename_i h1 h2
      simp only [Option.some_inj, Prod.mk.injEq] at h
      have := toDigit_le h1
      have := toDigit_le h2
      omega
    · simp at h
  · simp at h

theorem read4_le {s : List Char} {v : Nat} {r : List Char} (h : read4 s = some (v, r)) :
    v ≤ 9999 := by
  unfold read4 at h
  split at h
  · split at h
    · rename_i h1 h2 h3 h4
      simp only [Option.some_inj, Prod.mk.injEq] at h
      have := toDigit_le h1
      have := toDigit_le h2
      have := toDigit_le h3
      have := toDigit_le h4
      omega
    · simp at h
  · simp at h

theorem readDigits_lt : ∀ (s : List Char), ∀ d ∈ (readDigits s).1, d < 10 := by
  intro s
  induction s with
  | nil => intro d hd; simp [readDigits] at hd
  | cons c cs ih =>
    intro d hd
    rw [readDigits] at hd
    cases hc : toDigit c with
    | some e =>
      rw [hc] at hd
      simp only [List.mem_cons] at hd
      rcases hd with rfl | hd
      · have := toDigit_le hc; omega
      · exact ih d hd
    | none => rw [hc] at hd; simp at hd

theorem foldl_digits_lt (l : List Nat) (hl : ∀ d ∈ l, d < 10) :
    ∀ a : Nat, l.foldl (fun a d => 10 * a + d) a < (a + 1) * 10 ^ l.length := by
  induction l with
  | nil => intro a; simp
  | cons d l ih =>
    intro a
    have hd := hl d (by simp)
    have hrec := ih (fun x hx => hl x (by simp [hx])) (10 * a + d)
    simp only [List.foldl_cons, List.length_cons]
    refine lt_of_lt_of_le hrec ?_
    have h1 : 10 * a + d + 1 ≤ (a + 1) * 10 := by omega
    calc (10 * a + d + 1) * 10 ^ l.length ≤ (a + 1) * 10 * 10 ^ l.length :=
          Nat.mul_le_mul_right _ h1
      _ = (a + 1) * 10 ^ (l.length + 1) := by ring

theorem fracVal_lt {ds : List Nat} (h : ∀ d ∈ ds, d < 10) : fracVal ds < 10 ^ 9 := by
  unfold fracVal
  have h1 : ∀ d ∈ ds.take 9, d < 10 := fun d hd => h d (List.mem_of_mem_take hd)
  have h2 := foldl_digits_lt _ h1 0
  rw [Nat.zero_add, Nat.one_mul, List.length_take] at h2
  have hk : min 9 ds.length = min ds.length 9 := Nat.min_comm _ _
  rw [hk] at h2
  have hk9 : min ds.length 9 ≤ 9 := Nat.min_le_right _ _
  calc (ds.take 9).foldl (fun a d => 10 * a + d) 0 * 10 ^ (9 - min ds.length 9)
      < 10 ^ min ds.length 9 * 10 ^ (9 - min ds.length 9) :=
        Nat.mul_lt_mul_of_lt_of_le h2 (Nat.le_refl _) (Nat.pos_pow_of_pos _ (by norm_num))
    _ = 10 ^ 9 := by rw [← pow_add]; congr 1; omega

theorem parseFrac_lt {s : List Char} {ns : Nat} {r : List Char}
    (h : parseFrac s = some (ns, r)) : ns < 10 ^ 9 := by
  unfold parseFrac at h
  split at h
  · split at h
    · split at h
      · split at h
        · rename_i hdig
          simp only [Option.some_inj, Prod.mk.injEq] at h
          obtain ⟨hns, _⟩ := h
          rw [← hns]
          apply fracVal_lt
          intro d hd
          simp only [List.mem_cons] at hd
          rcases hd with rfl | hd
          · have := toDigit_le hdig; omega
          · exact readDigits_lt _ d hd
        · simp at h
      · simp at h
    · simp only [Option.some_inj, Prod.mk.injEq] at h
      rw [← h.1]
      norm_num
  · simp only [Option.some_inj, Prod.mk.injEq] at h
    rw [← h.1]
    norm_num

theorem parseZone_natAbs {s : List Char} {off : Int} (h : parseZone s = some off) :
    off.natAbs ≤ 1439 := by
  unfold parseZone at h
  split at h
  · split at h
    · simp only [Option.some_inj] at h
      rw [← h]
      norm_num
    · simp at h
  · split at h
    · split at h
      · rename_i ha hb hc hd
        have h1 := toDigit_le ha
        have h2 := toDigit_le hb
        have h3 := toDigit_le hc
        have h4 := toDigit_le hd
        split_ifs at h <;> simp at h <;> omega
      · simp at h
    · simp at h
  · simp at h

theorem parseRFC3339_valid {s : List Char} {t : CreatedTime}
    (h : parseRFC3339 s = some t) : t.Valid := by
  unfold parseRFC3339 at h
  split at h
  · simp at h
  rename_i year s1 h4
  split at h
  · simp at h
  rename_i s2 hsep1
  split at h
  · simp at h
  rename_i month s3 h2m
  split at h
  · simp at h
  rename_i s4 hsep2
  split at h
  · simp at h
  rename_i day s5 h2d
  split at h
  · simp at h
  rename_i s6 hsep3
  split at h
  · simp at h
  rename_i hour s7 h2h
  split at h
  · simp at h
  rename_i s8 hsep4
  split at h
  · simp at h
  rename_i minute s9 h2mi
  split at h
  · simp at h
  rename_i s10 hsep5
  split at h
  · simp at h
  rename_i second s11 h2s
  split at h
  · simp at h
  rename_i hg1
  split at h
  · simp at h
  rename_i hg2
  split at h
  · simp at h
  rename_i hg3
  split at h
  · simp at h
  rename_i hg4
  split at h
  · simp at h
  rename_i hg5
  split at h
  · simp at h
  rename_i nanos s12 hfrac
  split at h
  · simp at h
  rename_i offset hzone
  simp only [Option.some_inj] at h
  subst h
  unfold CreatedTime.Valid
  dsimp only
  push_neg at hg1 hg2
  refine ⟨read4_le h4, ?_, ?_, ?_, ?_, ?_, ?_, ?_, parseFrac_lt hfrac, parseZone_natAbs hzone⟩
  · exact hg1.1
  · omega
  · exact hg2.1
  · omega
  · omega
  · omega
  · omega

theorem toDigit_digitChar {d : Nat} (h : d < 10) : toDigit (digitChar d) = some d := by
  interval_cases d <;> decide

theorem toDigit_digitChar_mod (n : Nat) : toDigit (digitChar (n % 10)) = some (n % 10) :=
  toDigit_digitChar (Nat.mod_lt _ (by norm_num))

theorem expectChar_cons (c : Char) (rest : List Char) : expectChar c (c :: rest) = some rest := by
  simp [expectChar]

theorem read2_pad2 (n : Nat) (rest : List Char) (h : n ≤ 99) :
    read2 (pad2 n ++ rest) = some (n, rest) := by
  show read2 (digitChar (n / 10 % 10) :: digitChar (n % 10) :: rest) = some (n, rest)
  rw [read2, toDigit_digitChar_mod, toDigit_digitChar_mod]
  dsimp only
  have : 10 * (n / 10 % 10) + n % 10 = n := by omega
  rw [this]

theorem read4_pad4 (n : Nat) (rest : List Char) (h : n ≤ 9999) :
    read4 (pad4 n ++ rest) = some (n, rest) := by
  show read4 (digitChar (n / 1000 % 10) :: digitChar (n / 100 % 10) ::
    digitChar (n / 10 % 10) :: digitChar (n % 10) :: rest) = some (n, rest)
  rw [read4, toDigit_digitChar_mod, toDigit_digitChar_mod, toDigit_digitChar_mod,
    toDigit_digitChar_mod]
  dsimp only
  have : 1000 * (n / 1000 % 10) + 100 * (n / 100 % 10) + 10 * (n / 10 % 10) + n % 10 = n := by
    omega
  rw [this]

theorem padN_length (w : Nat) : ∀ n : Nat, (padN w n).length = w := by
  induction w with
  | zero => intro n; rfl
  | succ w ih => intro n; rw [padN]; simp [ih]

theorem padN_lt (w : Nat) : ∀ n : Nat, ∀ d ∈ padN w n, d < 10 := by
  induction w with
  | zero => intro n d hd; simp [padN] at hd
  | succ w ih =>
    intro n d hd
    rw [padN] at hd
    simp only [List.mem_append, List.mem_singleton] at hd
    rcases hd with hd | rfl
    · exact ih _ d hd
    · exact Nat.mod_lt _ (by norm_num)

theorem padN_foldl (w : Nat) : ∀ n : Nat, n < 10 ^ w →
    (padN w n).foldl (fun a d => 10 * a + d) 0 = n := by
  induction w with
  | zero =>
    intro n hn
    simp only [pow_zero, Nat.lt_one_iff] at hn
    simp [padN, hn]
  | succ w ih =>
    intro n hn
    rw [padN, List.foldl_append]
    have hdiv : n / 10 < 10 ^ w := by
      rw [Nat.div_lt_iff_lt_mul (by norm_num : (0:Nat) < 10)]
      rw [pow_succ] at hn
      exact hn
    rw [ih (n / 10) hdiv]
    simp only [List.foldl_cons, List.foldl_nil]
    omega

theorem stripZeros_spec (w : Nat) : ∀ n : Nat,
    (stripZeros n w).2 ≤ w ∧ (stripZeros n w).1 * 10 ^ (w - (stripZeros n w).2) = n := by
  induction w with
  | zero => intro n; simp [stripZeros]
  | succ w ih =>
    intro n
    rw [stripZeros]
    split
    · rename_i h10
      obtain ⟨h1, h2⟩ := ih (n / 10)
      refine ⟨h1.trans (by omega), ?_⟩
      have hs : w + 1 - (stripZeros (n / 10) w).2 = (w - (stripZeros (n / 10) w).2) + 1 := by
        omega
      rw [hs, pow_succ, ← Nat.mul_assoc, h2]
      omega
    · simp

theorem readDigits_map (ds : List Nat) (h : ∀ d ∈ ds, d < 10) (rest : List Char)
    (hrest : ∀ c, rest.head? = some c → toDigit c = none) :
    readDigits (ds.map digitChar ++ rest) = (ds, rest) := by
  induction ds with
  | nil =>
    cases rest with
    | nil => rfl
    | cons c cs =>
      simp only [List.map_nil, List.nil_append]
      rw [readDigits, hrest c rfl]
  | cons d ds ih =>
    simp only [List.map_cons, List.cons_append]
    rw [readDigits, toDigit_digitChar (h d (by simp)),
      ih (fun x hx => h x (by simp [hx])) ]

theorem zoneChars_head (off : Int) :
    ∀ c, (zoneChars off).head? = some c → toDigit c = none ∧ ¬ c = '.' := by
  intro c hc
  unfold zoneChars at hc
  split at hc
  · simp only [List.head?_cons, Option.some_inj] at hc
    subst hc
    exact ⟨by decide, by decide⟩
  · simp only [List.head?_cons, Option.some_inj] at hc
    subst hc
    split <;> exact ⟨by decide, by decide⟩

theorem daysIn_le (m y : Nat) : daysIn m y ≤ 31 := by
  unfold daysIn
  split_ifs <;> norm_num

theorem parseFrac_fracChars (ns : Nat) (hns : ns < 10 ^ 9) (off : Int) :
    parseFrac (fracChars ns ++ zoneChars off) = some (ns, zoneChars off) := by
  by_cases h0 : ns = 0
  · subst h0
    rw [fracChars, if_pos rfl]
    simp only [List.nil_append]
    cases hz : zoneChars off with
    | nil => rfl
    | cons c cs =>
      have hc := zoneChars_head off c (by rw [hz]; rfl)
      rw [parseFrac.eq_def]
      dsimp only
      rw [if_neg hc.2]
  · rw [fracChars, if_neg h0]
    obtain ⟨hle, heq⟩ := stripZeros_spec 9 ns
    have h9 : (10 : Nat) ^ 9 = 1000000000 := by norm_num
    have hw1 : 1 ≤ (stripZeros ns 9).2 := by
      by_contra hw
      push_neg at hw
      have hz : (stripZeros ns 9).2 = 0 := by omega
      rw [hz, Nat.sub_zero, h9] at heq
      rw [h9] at hns
      omega
    have hp1 : (stripZeros ns 9).1 < 10 ^ (stripZeros ns 9).2 := by
      by_contra hge
      push_neg at hge
      have hmul : 10 ^ (stripZeros ns 9).2 * 10 ^ (9 - (stripZeros ns 9).2) ≤
          (stripZeros ns 9).1 * 10 ^ (9 - (stripZeros ns 9).2) :=
        Nat.mul_le_mul_right _ hge
      rw [heq, ← pow_add] at hmul
      have h99 : (stripZeros ns 9).2 + (9 - (stripZeros ns 9).2) = 9 := by omega
      rw [h99, h9] at hmul
      rw [h9] at hns
      omega
    cases hpn : padN (stripZeros ns 9).2 (stripZeros ns 9).1 with
    | nil =>
      have hl := padN_length (stripZeros ns 9).2 (stripZeros ns 9).1
      rw [hpn] at hl
      simp at hl
      omega
    | cons d ds =>
      dsimp only
      rw [hpn]
      simp only [List.map_cons, List.cons_append]
      rw [parseFrac.eq_def]
      dsimp only
      rw [if_pos rfl]
      have hd : d < 10 := padN_lt _ _ d (by rw [hpn]; simp)
      have hds : ∀ x ∈ ds, x < 10 := fun x hx => padN_lt _ _ x (by rw [hpn]; simp [hx])
      rw [toDigit_digitChar hd]
      dsimp only
      rw [readDigits_map ds hds _ (fun c hc => (zoneChars_head off c hc).1)]
      dsimp only
      have hlen : (d :: ds).length = (stripZeros ns 9).2 := by
        rw [← hpn]
        exact padN_length _ _
      rw [fracVal]
      have htake : (d :: ds).take 9 = d :: ds := List.take_of_length_le (by omega)
      rw [htake, hlen, Nat.min_eq_left hle, ← hpn, padN_foldl _ _ hp1, heq]

theorem parseZone_zoneChars (off : Int) (h : off.natAbs ≤ 1439) :
    parseZone (zoneChars off) = some off := by
  by_cases h0 : off = 0
  · subst h0
    rfl
  · rw [zoneChars, if_neg h0]
    have e1 : 10 * (off.natAbs / 60 / 10 % 10) + off.natAbs / 60 % 10 = off.natAbs / 60 := by
      omega
    have e2 : 10 * (off.natAbs % 60 / 10 % 10) + off.natAbs % 60 % 10 = off.natAbs % 60 := by
      omega
    by_cases hneg : off < 0
    · rw [if_pos hneg]
      show parseZone ['-', digitChar (off.natAbs / 60 / 10 % 10), digitChar (off.natAbs / 60 % 10),
        ':', digitChar (off.natAbs % 60 / 10 % 10), digitChar (off.natAbs % 60 % 10)] = some off
      rw [parseZone, if_pos (by exact ⟨Or.inr rfl, rfl⟩), toDigit_digitChar_mod,
        toDigit_digitChar_mod, toDigit_digitChar_mod, toDigit_digitChar_mod]
      dsimp only
      rw [e1, e2, if_pos ⟨by omega, by omega⟩, if_pos rfl]
      congr 1
      omega
    · rw [if_neg hneg]
      show parseZone ['+', digitChar (off.natAbs / 60 / 10 % 10), digitChar (off.natAbs / 60 % 10),
        ':', digitChar (off.natAbs % 60 / 10 % 10), digitChar (off.natAbs % 60 % 10)] = some off
      rw [parseZone, if_pos (by exact ⟨Or.inl rfl, rfl⟩), toDigit_digitChar_mod,
        toDigit_digitChar_mod, toDigit_digitChar_mod, toDigit_digitChar_mod]
      dsimp only
      rw [e1, e2, if_pos ⟨by omega, by omega⟩, if_neg (by decide)]
      congr 1
      omega

theorem parseRFC3339_format {t : CreatedTime} (h : t.Valid) :
    parseRFC3339 (formatRFC3339Nano t) = some t := by
  obtain ⟨hy, hm1, hm2, hd1, hd2, hh, hmi, hs, hns, hoff⟩ := h
  have hdle := daysIn_le t.month t.year
  unfold formatRFC3339Nano parseRFC3339
  rw [read4_pad4 _ _ hy]
  dsimp only
  rw [expectChar_cons]
  dsimp only
  rw [read2_pad2 _ _ (by omega)]
  dsimp only
  rw [expectChar_cons]
  dsimp only
  rw [read2_pad2 _ _ (by omega)]
  dsimp only
  rw [expectChar_cons]
  dsimp only
  rw [read2_pad2 _ _ (by omega)]
  dsimp only
  rw [expectChar_cons]
  dsimp only
  rw [read2_pad2 _ _ (by omega)]
  dsimp only
  rw [expectChar_cons]
  dsimp only
  rw [read2_pad2 _ _ (by omega)]
  dsimp only
  rw [if_neg (by omega), if_neg (by omega), if_neg (by omega), if_neg (by omega),
    if_neg (by omega)]
  rw [parseFrac_fracChars t.nanos hns t.offset]
  dsimp only
  rw [parseZone_zoneChars t.offset hoff]

theorem digitChar_ne_quote (d : Nat) : digitChar d ≠ '"' := by
  unfold digitChar
  split <;> decide

theorem mem_pad2_ne_quote (n : Nat) : ∀ c ∈ pad2 n, c ≠ '"' := by
  intro c hc
  simp only [pad2, List.mem_cons, List.not_mem_nil, or_false] at hc
  rcases hc with rfl | rfl <;> exact digitChar_ne_quote _

theorem mem_pad4_ne_quote (n : Nat) : ∀ c ∈ pad4 n, c ≠ '"' := by
  intro c hc
  simp only [pad4, List.mem_cons, List.not_mem_nil, or_false] at hc
  rcases hc with rfl | rfl | rfl | rfl <;> exact digitChar_ne_quote _

theorem mem_fracChars_ne_quote (ns : Nat) : ∀ c ∈ fracChars ns, c ≠ '"' := by
  intro c hc
  unfold fracChars at hc
  split at hc
  · simp at hc
  · dsimp only at hc
    simp only [List.mem_cons, List.mem_map] at hc
    rcases hc with rfl | ⟨d, _, rfl⟩
    · decide
    · exact digitChar_ne_quote d

theorem mem_zoneChars_ne_quote (off : Int) : ∀ c ∈ zoneChars off, c ≠ '"' := by
  intro c hc
  unfold zoneChars at hc
  split at hc
  · simp only [List.mem_singleton] at hc
    subst hc
    decide
  · dsimp only at hc
    simp only [List.mem_cons, List.mem_append] at hc
    rcases hc with rfl | hc | rfl | hc
    · split <;> decide
    · exact mem_pad2_ne_quote _ c hc
    · decide
    · exact mem_pad2_ne_quote _ c hc

theorem mem_format_ne_quote (t : CreatedTime) : ∀ c ∈ formatRFC3339Nano t, c ≠ '"' := by
  unfold formatRFC3339Nano
  refine List.forall_mem_append.mpr ⟨mem_pad4_ne_quote t.year, List.forall_mem_cons.mpr
    ⟨by decide, ?_⟩⟩
  refine List.forall_mem_append.mpr ⟨mem_pad2_ne_quote t.month, List.forall_mem_cons.mpr
    ⟨by decide, ?_⟩⟩
  refine List.forall_mem_append.mpr ⟨mem_pad2_ne_quote t.day, List.forall_mem_cons.mpr
    ⟨by decide, ?_⟩⟩
  refine List.forall_mem_append.mpr ⟨mem_pad2_ne_quote t.hour, List.forall_mem_cons.mpr
    ⟨by decide, ?_⟩⟩
  refine List.forall_mem_append.mpr ⟨mem_pad2_ne_quote t.minute, List.forall_mem_cons.mpr
    ⟨by decide, ?_⟩⟩
  refine List.forall_mem_append.mpr ⟨mem_pad2_ne_quote t.second, ?_⟩
  exact List.forall_mem_append.mpr ⟨mem_fracChars_ne_quote t.nanos, mem_zoneChars_ne_quote t.offset⟩

theorem dropWhile_quote (l : List Char) (h : ∀ c ∈ l, c ≠ '"') :
    l.dropWhile (fun c => c = '"') = l := by
  cases l with
  | nil => rfl
  | cons c cs =>
    rw [List.dropWhile_cons]
    simp [h c (by simp)]

theorem trimQuotes_eq_self {l : List Char} (h : ∀ c ∈ l, c ≠ '"') : trimQuotes l = l := by
  unfold trimQuotes
  rw [dropWhile_quote l h,
    dropWhile_quote l.reverse (fun c hc => h c (List.mem_reverse.mp hc))]
  exact List.reverse_reverse l

/-- C5 (confirmed): the timestamp codec round-trips: for every string
the CreatedTime unmarshaler accepts (the RFC3339 layout with optional
fractional seconds, quoted or not), re-encoding the parsed time with the
RFC3339Nano output layout yields a representation that the codec decodes
to the very same time, calendar fields, nanoseconds and zone offset
included, hence the identical point in time to nanosecond precision. -/
theorem created_time_roundtrip :
    ∀ (s : String) (t : CreatedTime), CreatedTime.unmarshalJSON s = some t →
      CreatedTime.unmarshalJSON (CreatedTime.string t) = some t := by
  intro s t h
  unfold CreatedTime.unmarshalJSON at h ⊢
  have hv := parseRFC3339_valid h
  unfold CreatedTime.string
  rw [show (String.mk (formatRFC3339Nano t)).data = formatRFC3339Nano t from rfl,
    trimQuotes_eq_self (mem_format_ne_quote t)]
  exact parseRFC3339_format hv

/-- C5 (witness): the round-trip theorem applied to a concrete quoted
timestamp with fractional seconds and a non UTC offset. -/
theorem created_time_roundtrip_witness :
    CreatedTime.unmarshalJSON "\"2021-06-05T12:30:01.12345+02:30\"" =
      some ⟨2021, 6, 5, 12, 30, 1, 123450000, 150⟩ ∧
    CreatedTime.unmarshalJSON (CreatedTime.string ⟨2021, 6, 5, 12, 30, 1, 123450000, 150⟩) =
      some ⟨2021, 6, 5, 12, 30, 1, 123450000, 150⟩ := by
  refine ⟨by decide, ?_⟩
  exact created_time_roundtrip "\"2021-06-05T12:30:01.12345+02:30\"" _ (by decide)
